import Mathlib

/-!
Verification development for the `indexed_safe` metadata-extraction engine
(`src/index_safe/extract_metadata.py`).

The Python module fetches byte ranges of a remote Sentinel-1 SLC archive,
decompresses each range as a raw (headerless) zlib stream, and concatenates
the decoded buffers, in the order the offsets were declared, into a single
`<slc_name>.xml` output file.

Embedding conventions:
* Byte strings are `List Nat` (one `Nat` per byte).
* Python exceptions are values of `PyError`; a fallible Python function
  becomes a Lean function into `Except PyError _`.
* The network environment (what `boto3`'s `get_object` and
  `requests.Session.get` would answer for a given `Range` header) is passed
  in as explicit function parameters, so every definition is executable.
* The thread pool of `extract_metadata` is modelled by an explicit
  completion order (`List Nat` of worker indices): workers complete in an
  arbitrary order and each writes its result into a buffer slot at its own
  input index, which is how `concurrent.futures` realises `executor.map`.
-/

set_option linter.unusedVariables false

/-- Python-level failure outcomes relevant to `extract_metadata.py`. -/
inductive PyError where
  /-- `IndexError` from `list(metadata_dict.keys())[0]` on an empty dict. -/
  | indexError
  /-- `UnboundLocalError`: a local (`body` in `extract_bytes`, `client` in
  `extract_metadata`) is referenced although no branch assigned it. -/
  | unboundLocal
  /-- An exception raised by the botocore S3 client (`get_object`). -/
  | clientError
  /-- An exception raised by `requests` at network level. -/
  | requestsError
  /-- `zlib.error`: the body is not a valid raw-compressed stream. -/
  | zlibError
  /-- Construction-time rejection of an invalid range (spec-modelled,
  see `Offset.make`). -/
  | configError
deriving DecidableEq, Repr

/-- Embedding of `utils.Offset`: a half-open byte range `[start, stop)` into the archive
(fields as in the Python dataclass). -/
structure Offset where
  start : Nat
  stop : Nat
deriving DecidableEq, Repr

/-- Modelled from the spec: `utils.Offset` lives in `utils.py`, which is not
part of the sources at hand.  The spec's data model states the invariant
`stop > start` and that violating it "is a construction error, not a runtime
fetch error", so construction yields `none` when `stop ≤ start`. -/
def Offset.make (start stop : Nat) : Option Offset :=
  if start < stop then some ⟨start, stop⟩ else none

/-- One inner entry of the offset-table JSON:
`{"offset_start": ..., "offset_stop": ...}`. -/
structure JsonEntry where
  offset_start : Nat
  offset_stop : Nat
deriving DecidableEq, Repr

/-- The parsed offset-table JSON: an insertion-ordered mapping from archive
identifier to an insertion-ordered mapping from fragment name to offsets
(Python's `json.load` preserves object key order in a `dict`). -/
abbrev JsonTable : Type := List (String × List (String × JsonEntry))

/-- Embedding of `utils.XmlMetadata`: fragment name, archive (SLC) name, and offset. -/
structure XmlMetadata where
  name : String
  slc : String
  offset : Offset
deriving DecidableEq, Repr

/-- The `Range` header string built at the top of `extract_bytes`
(`f'bytes={offset.start}-{offset.stop - 1}'`). -/
def rangeHeader (offset : Offset) : String :=
  "bytes=" ++ toString offset.start ++ "-" ++ toString (offset.stop - 1)

/-- Raw DEFLATE (RFC 1951) decoding of stored (uncompressed) blocks: the
model of `zlib.decompressobj(-zlib.MAX_WBITS).decompress` used at the end of
`extract_bytes`.  `zlib` itself is an external library; per the spec the
decoder consumes a raw headerless stream, and this model decodes exactly the
synthetic stored-block streams produced by `compressRaw`, agreeing with zlib
on them.  Each block is `BFINAL`/`BTYPE` header byte, `LEN`/`NLEN`
little-endian pairs, then `LEN` literal bytes; data after a final block is
ignored, as `decompressobj.decompress` ignores `unused_data`. -/
def inflateRaw : List Nat → Option (List Nat)
  | b :: l0 :: l1 :: n0 :: n1 :: tail =>
    if (b / 2) % 4 ≠ 0 then none
    else if n0 = 255 - l0 ∧ n1 = 255 - l1 then
      if l0 + 256 * l1 ≤ tail.length then
        if b % 2 = 1 then some (tail.take (l0 + 256 * l1))
        else
          match inflateRaw (tail.drop (l0 + 256 * l1)) with
          | some more => some (tail.take (l0 + 256 * l1) ++ more)
          | none => none
      else none
    else none
  | _ => none
termination_by s => s.length
decreasing_by
  simp only [List.length_cons, List.length_drop]
  omega

/-- One stored (BTYPE 00) DEFLATE block holding `data` literally;
`data.length` must be at most 65535 for the `LEN` field to be faithful. -/
def deflateStoredBlock (final : Bool) (data : List Nat) : List Nat :=
  (if final then 1 else 0) :: data.length % 256 :: data.length / 256 ::
    (255 - data.length % 256) :: (255 - data.length / 256) :: data

/-- The `compress_raw` of the spec's round-trip law: build a synthetic raw
DEFLATE stream for arbitrary plaintext out of stored blocks (chunks of at
most 65535 bytes). -/
def compressRaw (p : List Nat) : List Nat :=
  if p.length ≤ 65535 then deflateStoredBlock true p
  else deflateStoredBlock false (p.take 65535) ++ compressRaw (p.drop 65535)
termination_by p.length
decreasing_by
  simp only [List.length_drop]
  omega

/-- The decode step of `extract_bytes`
(`zlib.decompressobj(-1 * zlib.MAX_WBITS).decompress(body)`): an invalid
stream raises `zlib.error`. -/
def decodeBody (body : List Nat) : Except PyError (List Nat) :=
  match inflateRaw body with
  | some plain => Except.ok plain
  | none => Except.error PyError.zlibError

/-- Outcome of `client.get_object(...)['Body'].read()`: botocore either
returns the body bytes or raises (it raises on any non-success response,
authentication failure, or network failure). -/
inductive S3Result where
  | ok (body : List Nat)
  | raise
deriving DecidableEq, Repr

/-- Outcome of `client.get(url, headers={'Range': ...})`: `requests` either
returns a response object — whatever its status code — or raises on a
network-level failure.  It does NOT raise on a non-success status. -/
inductive HttpResult where
  | resp (statusCode : Nat) (content : List Nat)
  | raise
deriving DecidableEq, Repr

/-- The `client` argument of `extract_bytes`.  The two supported runtime
types carry the environment's answer per `Range` header (the bucket/key for
S3 and the url for HTTP are fixed for one operation, so the header is the
only varying part of a request); `other` is any value of a third type, for
which no `isinstance` branch fires. -/
inductive Client where
  | s3 (getObject : String → S3Result)
  | http (get : String → HttpResult)
  | other

/-- Shallow embedding of `extract_bytes(url, offset, client)`.  Returns the
Python outcome together with the list of wire requests issued (as `Range`
header strings).  Follows the source line by line: build `range_header`;
dispatch on the client's type (no `else` branch exists, so any other type
leaves `body` unassigned and the final `zlib` line raises
`UnboundLocalError` without any request being issued); finally decompress
the body as a raw zlib stream. -/
def extract_bytes (url : String) (offset : Offset) (client : Client) :
    Except PyError (List Nat) × List String :=
  match client with
  | Client.s3 getObject =>
    match getObject (rangeHeader offset) with
    | S3Result.ok body => (decodeBody body, [rangeHeader offset])
    | S3Result.raise => (Except.error PyError.clientError, [rangeHeader offset])
  | Client.http get =>
    match get (rangeHeader offset) with
    | HttpResult.resp _ content => (decodeBody content, [rangeHeader offset])
    | HttpResult.raise => (Except.error PyError.requestsError, [rangeHeader offset])
  | Client.other => (Except.error PyError.unboundLocal, [])

/-- The loop body of `json_to_metadata_entries`: build one `XmlMetadata` per
entry of the first archive's inner mapping, in its declared order.  Offset
construction goes through the spec-modelled `Offset.make` (see there). -/
def buildEntries (slc_name : String) :
    List (String × JsonEntry) → Except PyError (List XmlMetadata)
  | [] => Except.ok []
  | (key, entry) :: rest =>
    match Offset.make entry.offset_start entry.offset_stop with
    | none => Except.error PyError.configError
    | some offset =>
      match buildEntries slc_name rest with
      | Except.error e => Except.error e
      | Except.ok tail => Except.ok (⟨key, slc_name, offset⟩ :: tail)

/-- Shallow embedding of `json_to_metadata_entries` on the already-parsed
JSON value: `slc_name = list(metadata_dict.keys())[0]` raises `IndexError`
on an empty mapping; otherwise only the first key's inner mapping is
iterated. -/
def json_to_metadata_entries (table : JsonTable) :
    Except PyError (List XmlMetadata) :=
  match table with
  | [] => Except.error PyError.indexError
  | (slc_name, inner) :: _ => buildEntries slc_name inner

/-- The result buffer of the thread pool: each index `i` of the completion
order `order` is the position of a worker that finished; it writes
`f (xs.get i)` into slot `i` of a pre-sized buffer.  Indices out of range
never occur in a real run and are ignored. -/
def collectByIndex {α β : Type} (f : α → β) (xs : List α)
    (order : List Nat) : List (Option β) :=
  order.foldl
    (fun buf i =>
      match xs[i]? with
      | some x => buf.set i (some (f x))
      | none => buf)
    (List.replicate xs.length (none : Option β))

/-- Model of `executor.map(f, xs)` over a `ThreadPoolExecutor`: workers complete in
`order`, results are read back out of the index-keyed buffer in input
order. -/
def poolMap {α β : Type} (f : α → β) (xs : List α) (order : List Nat) :
    List β :=
  (collectByIndex f xs order).reduceOption

/-- Forcing the iterator returned by `executor.map` (the `list(...)` call):
results come back in input order and the first exception, in input order,
propagates. -/
def sequenceE {α : Type} : List (Except PyError α) → Except PyError (List α)
  | [] => Except.ok []
  | Except.error e :: _ => Except.error e
  | Except.ok a :: rest =>
    match sequenceE rest with
    | Except.error e => Except.error e
    | Except.ok as => Except.ok (a :: as)

/-- The client picked by `extract_metadata` from the `strategy` flag.  No
branch exists for any other strategy value, so `client` stays unassigned
(`none`). -/
def selectClient (strategy : String) (s3c : String → S3Result)
    (httpc : String → HttpResult) : Option Client :=
  if strategy = "s3" then some (Client.s3 s3c)
  else if strategy = "http" then some (Client.http httpc)
  else none

/-- The output artifact: file name and content of the single `open(...,'wb')`
write. -/
structure FileWrite where
  name : String
  content : List Nat
deriving DecidableEq, Repr

/-- Shallow embedding of `extract_metadata(slc_name, json_file_path,
strategy)`.  `get_download_url` and the credential plumbing live in the
absent `utils.py`; they are abstracted as the `getUrl` parameter and as the
behaviours `s3c`/`httpc` that the constructed client exhibits.  `order` is
the completion order of the pool's workers.  Returns the Python outcome —
`FileWrite` happens only on full success — plus the wire requests issued. -/
def extract_metadata (slc_name : String) (table : JsonTable)
    (strategy : String) (getUrl : String → String)
    (s3c : String → S3Result) (httpc : String → HttpResult)
    (order : List Nat) : Except PyError FileWrite × List String :=
  match json_to_metadata_entries table with
  | Except.error e => (Except.error e, [])
  | Except.ok metadatas =>
    match selectClient strategy s3c httpc with
    | none => (Except.error PyError.unboundLocal, [])
    | some client =>
      match
        poolMap (fun o => extract_bytes (getUrl slc_name) o client)
          (metadatas.map XmlMetadata.offset) order
      with
      | runs =>
        match sequenceE (runs.map Prod.fst) with
        | Except.error e => (Except.error e, (runs.map Prod.snd).flatten)
        | Except.ok results =>
          (Except.ok ⟨slc_name ++ ".xml", results.flatten⟩,
            (runs.map Prod.snd).flatten)

/-- The offsets of the fragment set a table describes (empty when parsing
fails); used to phrase completion-order hypotheses. -/
def tableOffsets (table : JsonTable) : List Offset :=
  match json_to_metadata_entries table with
  | Except.ok metadatas => metadatas.map XmlMetadata.offset
  | Except.error _ => []

/-- What each buffer slot holds after the completion-order fold, for any
starting buffer of the right length: a slot whose index completed holds its
worker's result, any other slot is untouched. -/
lemma collect_foldl_getElem? {α β : Type} (f : α → β) (xs : List α)
    (order : List Nat) (buf : List (Option β)) (hlen : buf.length = xs.length)
    (j : Nat) :
    (order.foldl
      (fun buf i =>
        match xs[i]? with
        | some x => buf.set i (some (f x))
        | none => buf) buf)[j]? =
      if j ∈ order ∧ j < xs.length then (xs[j]?).map (fun x => some (f x))
      else buf[j]? := by
  induction order generalizing buf with
  | nil => simp
  | cons i rest ih =>
    simp only [List.foldl_cons]
    rcases hxi : xs[i]? with _ | x
    · simp only [hxi]
      rw [ih buf hlen]
      have hi : xs.length ≤ i := List.getElem?_eq_none_iff.mp hxi
      by_cases hj : j ∈ rest ∧ j < xs.length
      · rw [if_pos hj, if_pos ⟨List.mem_cons_of_mem _ hj.1, hj.2⟩]
      · have hcond : ¬(j ∈ i :: rest ∧ j < xs.length) := by
          rintro ⟨hmem, hjlen⟩
          rcases List.mem_cons.mp hmem with rfl | hmem'
          · omega
          · exact hj ⟨hmem', hjlen⟩
        rw [if_neg hj, if_neg hcond]
    · simp only [hxi]
      have hi : i < xs.length := (List.getElem?_eq_some.mp hxi).1
      rw [ih (buf.set i (some (f x))) (by simp [hlen])]
      by_cases hj : j ∈ rest ∧ j < xs.length
      · rw [if_pos hj, if_pos ⟨List.mem_cons_of_mem _ hj.1, hj.2⟩]
      · by_cases hij : j = i
        · subst hij
          rw [if_neg hj, if_pos ⟨List.mem_cons_self _ _, hi⟩]
          rw [List.getElem?_set_eq_of_lt _ (by omega : j < buf.length)]
          rw [hxi]
          rfl
        · rw [if_neg hj, List.getElem?_set_ne (Ne.symm hij)]
          have hcond : ¬(j ∈ i :: rest ∧ j < xs.length) := by
            rintro ⟨hmem, hjlen⟩
            rcases List.mem_cons.mp hmem with rfl | hmem'
            · exact hij rfl
            · exact hj ⟨hmem', hjlen⟩
          rw [if_neg hcond]

/-- When every input index appears in the completion order, the result
buffer is exactly the input-order map of the worker function. -/
lemma collectByIndex_complete {α β : Type} (f : α → β) (xs : List α)
    (order : List Nat) (hc : ∀ i, i < xs.length → i ∈ order) :
    collectByIndex f xs order = xs.map (fun x => some (f x)) := by
  apply List.ext_getElem?
  intro j
  unfold collectByIndex
  rw [collect_foldl_getElem? f xs order _ (by simp) j]
  by_cases hj : j < xs.length
  · rw [if_pos ⟨hc j hj, hj⟩, List.getElem?_map]
  · rw [if_neg (fun h => hj h.2)]
    have h1 : (List.replicate xs.length (none : Option β))[j]? = none := by
      rw [List.getElem?_eq_none_iff, List.length_replicate]
      omega
    have h2 : (xs.map (fun x => some (f x)))[j]? = none := by
      rw [List.getElem?_eq_none_iff, List.length_map]
      omega
    rw [h1, h2]

lemma reduceOption_map_some {β : Type} (l : List β) :
    (l.map (fun b => some b)).reduceOption = l := by
  induction l with
  | nil => rfl
  | cons a t ih => simp [List.reduceOption_cons_of_some, ih]

/-- Key `executor.map` semantics: with a complete completion order, the pool's
output is the sequential input-order map. -/
lemma poolMap_complete {α β : Type} (f : α → β) (xs : List α)
    (order : List Nat) (hc : ∀ i, i < xs.length → i ∈ order) :
    poolMap f xs order = xs.map f := by
  unfold poolMap
  rw [collectByIndex_complete f xs order hc]
  have h : xs.map (fun x => some (f x)) = (xs.map f).map (fun b => some b) := by
    simp
  rw [h, reduceOption_map_some]

/-- With no fragments there are no workers: the pool returns nothing,
whatever the completion order. -/
lemma poolMap_nil {α β : Type} (f : α → β) (order : List Nat) :
    poolMap f ([] : List α) order = [] := by
  have h := poolMap_complete f ([] : List α) order
    (fun i hi => absurd hi (Nat.not_lt_zero i))
  simpa using h

/-- Forcing the iterator succeeds exactly when every element succeeded, and
returns the payloads in place. -/
lemma sequenceE_ok_iff {α : Type} (l : List (Except PyError α)) (rs : List α) :
    sequenceE l = Except.ok rs ↔ l = rs.map Except.ok := by
  induction l generalizing rs with
  | nil =>
    constructor
    · intro h
      have h' : ([] : List α) = rs := by
        have := h
        simp only [sequenceE] at this
        exact Except.ok.inj this
      rw [← h']
      rfl
    · intro h
      have h' : rs = [] := by
        cases rs with
        | nil => rfl
        | cons a t => simp at h
      rw [h']
      rfl
  | cons x t ih =>
    cases x with
    | error e =>
      constructor
      · intro h
        simp only [sequenceE] at h
        exact absurd h (by simp)
      · intro h
        cases rs with
        | nil => simp at h
        | cons a t' => simp at h
    | ok a =>
      constructor
      · intro h
        simp only [sequenceE] at h
        cases ht : sequenceE t with
        | error e => rw [ht] at h; simp at h
        | ok as =>
          rw [ht] at h
          have hrs : a :: as = rs := Except.ok.inj h
          rw [← hrs, List.map_cons]
          rw [ih as |>.mp ht]
      · intro h
        cases rs with
        | nil => simp at h
        | cons b t' =>
          simp only [List.map_cons, List.cons.injEq] at h
          obtain ⟨hab, ht⟩ := h
          have hb : a = b := by
            have := hab
            exact Except.ok.inj this
          simp only [sequenceE]
          rw [ih t' |>.mpr ht, ← hb]

/-- A failing element anywhere makes forcing the iterator fail. -/
lemma sequenceE_error_of_mem {α : Type} {l : List (Except PyError α)}
    {e : PyError} (h : Except.error e ∈ l) :
    ∃ e', sequenceE l = Except.error e' := by
  induction l with
  | nil => simp at h
  | cons x t ih =>
    cases x with
    | error e0 => exact ⟨e0, rfl⟩
    | ok a =>
      have hm : Except.error e ∈ t := by
        rcases List.mem_cons.mp h with h' | h'
        · exact absurd h' (by simp)
        · exact h'
      rcases ih hm with ⟨e', he'⟩
      refine ⟨e', ?_⟩
      simp only [sequenceE, he']

/-- Round trip of the stored-block codec: inflating a synthetic
raw-compressed stream recovers the plaintext exactly. -/
lemma inflateRaw_compressRaw (p : List Nat) :
    inflateRaw (compressRaw p) = some p := by
  rw [compressRaw]
  by_cases h : p.length ≤ 65535
  · rw [if_pos h]
    simp only [deflateStoredBlock, if_true]
    rw [inflateRaw]
    have hlen : p.length % 256 + 256 * (p.length / 256) = p.length :=
      Nat.mod_add_div _ _
    simp [hlen]
  · rw [if_neg h]
    have hd : (p.take 65535).length = 65535 := by
      rw [List.length_take]
      omega
    have ih := inflateRaw_compressRaw (p.drop 65535)
    have htake : List.take 65535 (List.take 65535 p ++ compressRaw (List.drop 65535 p))
        = List.take 65535 p := List.take_left' hd
    have hdrop : List.drop 65535 (List.take 65535 p ++ compressRaw (List.drop 65535 p))
        = compressRaw (List.drop 65535 p) := List.drop_left' hd
    have htail : 65535 ≤ (List.take 65535 p ++ compressRaw (List.drop 65535 p)).length := by
      rw [List.length_append, hd]
      omega
    simp only [deflateStoredBlock, hd, if_false, List.cons_append]
    norm_num
    rw [inflateRaw]
    norm_num [htake, hdrop, htail, ih]
    intro hcon
    exfalso
    omega
termination_by p.length
decreasing_by
  simp only [List.length_drop]
  omega

/-- An inner mapping containing an invalid range makes entry construction
fail, and the failure is the construction-time `configError`. -/
lemma buildEntries_error_of_bad {slc_name : String}
    {inner : List (String × JsonEntry)}
    (hbad : ∃ p ∈ inner, p.2.offset_stop ≤ p.2.offset_start) :
    buildEntries slc_name inner = Except.error PyError.configError := by
  induction inner with
  | nil => simp at hbad
  | cons p rest ih =>
    obtain ⟨q, hq, hqbad⟩ := hbad
    rcases List.mem_cons.mp hq with rfl | hq'
    · have hmk : Offset.make q.2.offset_start q.2.offset_stop = none := by
        unfold Offset.make
        rw [if_neg (by omega)]
      simp only [buildEntries, hmk]
    · rcases hmk : Offset.make p.2.offset_start p.2.offset_stop with _ | o
      · simp only [buildEntries]
        rw [hmk]
      · simp only [buildEntries]
        rw [hmk, ih ⟨q, hq', hqbad⟩]

/-- Successful construction never misreads an entry: each built descriptor
carries the first archive's name and the entry's own offsets. -/
lemma buildEntries_ok_of_valid {slc_name : String}
    {inner : List (String × JsonEntry)}
    (hok : ∀ p ∈ inner, p.2.offset_start < p.2.offset_stop) :
    buildEntries slc_name inner =
      Except.ok (inner.map (fun p =>
        ⟨p.1, slc_name, ⟨p.2.offset_start, p.2.offset_stop⟩⟩)) := by
  induction inner with
  | nil => rfl
  | cons p rest ih =>
    have hp := hok p (List.mem_cons_self p rest)
    have hmk : Offset.make p.2.offset_start p.2.offset_stop =
        some ⟨p.2.offset_start, p.2.offset_stop⟩ := by
      unfold Offset.make
      rw [if_pos hp]
    simp only [buildEntries, hmk, List.map_cons]
    rw [ih (fun q hq => hok q (List.mem_cons_of_mem p hq))]

/-- With a successful parse, a selected client, and a complete completion
order, `extract_metadata` behaves as the sequential input-order pipeline. -/
lemma extract_metadata_complete (slc_name : String) (table : JsonTable)
    (strategy : String) (getUrl : String → String) (s3c : String → S3Result)
    (httpc : String → HttpResult) (order : List Nat)
    (metadatas : List XmlMetadata) (client : Client)
    (hparse : json_to_metadata_entries table = Except.ok metadatas)
    (hclient : selectClient strategy s3c httpc = some client)
    (hc : ∀ i, i < metadatas.length → i ∈ order) :
    extract_metadata slc_name table strategy getUrl s3c httpc order =
      match
        sequenceE ((metadatas.map XmlMetadata.offset).map
          (fun o => (extract_bytes (getUrl slc_name) o client).1))
      with
      | Except.error e =>
        (Except.error e,
          ((metadatas.map XmlMetadata.offset).map
            (fun o => (extract_bytes (getUrl slc_name) o client).2)).flatten)
      | Except.ok results =>
        (Except.ok ⟨slc_name ++ ".xml", results.flatten⟩,
          ((metadatas.map XmlMetadata.offset).map
            (fun o => (extract_bytes (getUrl slc_name) o client).2)).flatten) := by
  simp only [extract_metadata, hparse, hclient]
  rw [poolMap_complete (fun o => extract_bytes (getUrl slc_name) o client)
    (metadatas.map XmlMetadata.offset) order
    (by simpa using hc)]
  simp only [List.map_map]
  rfl

/-- C7: Round-trip law for the decoder: for every plaintext byte string,
decoding (raw headerless zlib decompression as performed at the end of
`extract_bytes`) the raw-compressed stream produced from that plaintext
yields exactly the original plaintext. -/
theorem decode_compressRaw_roundtrip (p : List Nat) :
    decodeBody (compressRaw p) = Except.ok p := by
  unfold decodeBody
  rw [inflateRaw_compressRaw]

/-- C4: for every offset with `stop > start`, the wire request issued by
`extract_bytes` (over either client variant) is exactly the inclusive range
header `bytes=start-(stop-1)`, and that inclusive range covers precisely
the bytes of the half-open interval `[start, stop)`. -/
theorem extract_bytes_inclusive_range (url : String) (o : Offset)
    (s3g : String → S3Result) (httpg : String → HttpResult)
    (h : o.start < o.stop) :
    (extract_bytes url o (Client.s3 s3g)).2 = [rangeHeader o] ∧
    (extract_bytes url o (Client.http httpg)).2 = [rangeHeader o] ∧
    rangeHeader o =
      "bytes=" ++ toString o.start ++ "-" ++ toString (o.stop - 1) ∧
    ∀ b : Nat, (o.start ≤ b ∧ b ≤ o.stop - 1) ↔ (o.start ≤ b ∧ b < o.stop) := by
  refine ⟨?_, ?_, rfl, ?_⟩
  · rcases hx : s3g (rangeHeader o) with b | _ <;>
      simp [extract_bytes, hx]
  · rcases hx : httpg (rangeHeader o) with ⟨s, c⟩ | _ <;>
      simp [extract_bytes, hx]
  · intro b
    omega

theorem extract_bytes_inclusive_range_witness :
    (0 : Nat) < 10 ∧
    ((extract_bytes "u" ⟨0, 10⟩
        (Client.s3 (fun _ => S3Result.raise))).2 = [rangeHeader ⟨0, 10⟩] ∧
      (extract_bytes "u" ⟨0, 10⟩
        (Client.http (fun _ => HttpResult.raise))).2 = [rangeHeader ⟨0, 10⟩] ∧
      rangeHeader ⟨0, 10⟩ =
        "bytes=" ++ toString (0 : Nat) ++ "-" ++ toString (10 - 1 : Nat) ∧
      ∀ b : Nat, ((0 : Nat) ≤ b ∧ b ≤ 10 - 1) ↔ ((0 : Nat) ≤ b ∧ b < 10)) :=
  ⟨by decide,
    extract_bytes_inclusive_range "u" ⟨0, 10⟩ (fun _ => S3Result.raise)
      (fun _ => HttpResult.raise) (by decide)⟩

/-- C8: `json_to_metadata_entries` uses only the first top-level key of the
offset table as the archive identifier and builds the descriptors solely
from that key's inner mapping; any further top-level entries are silently
ignored (swapping them for anything else changes nothing). -/
theorem json_first_key_only (k : String) (inner : List (String × JsonEntry))
    (rest rest' : List (String × List (String × JsonEntry))) :
    json_to_metadata_entries ((k, inner) :: rest) =
      json_to_metadata_entries ((k, inner) :: rest') ∧
    json_to_metadata_entries ((k, inner) :: rest) = buildEntries k inner :=
  ⟨rfl, rfl⟩

/-- C10: for an offset table whose archive key carries an empty fragment
mapping, `extract_metadata` raises nothing: it performs zero wire fetches
and writes a zero-byte file named `<slc_name>.xml`. -/
theorem empty_fragments_empty_file (slc_name archive strategy : String)
    (getUrl : String → String) (s3c : String → S3Result)
    (httpc : String → HttpResult) (order : List Nat)
    (hstrat : strategy = "s3" ∨ strategy = "http") :
    extract_metadata slc_name [(archive, [])] strategy getUrl s3c httpc
        order =
      (Except.ok ⟨slc_name ++ ".xml", []⟩, []) := by
  obtain ⟨c, hcsel⟩ : ∃ c, selectClient strategy s3c httpc = some c := by
    rcases hstrat with h | h
    · exact ⟨Client.s3 s3c, by simp [selectClient, h]⟩
    · exact ⟨Client.http httpc, by simp [selectClient, h]⟩
  have hparse : json_to_metadata_entries [(archive, [])] = Except.ok [] := rfl
  simp only [extract_metadata, hparse, hcsel, List.map_nil, poolMap_nil]
  rfl

theorem empty_fragments_empty_file_witness :
    ("s3" = "s3" ∨ "s3" = "http") ∧
    extract_metadata "S" [("A", [])] "s3" (fun _ => "u")
        (fun _ => S3Result.raise) (fun _ => HttpResult.raise) [] =
      (Except.ok ⟨"S" ++ ".xml", []⟩, []) :=
  ⟨Or.inl rfl,
    empty_fragments_empty_file "S" "A" "s3" (fun _ => "u")
      (fun _ => S3Result.raise) (fun _ => HttpResult.raise) [] (Or.inl rfl)⟩

/-- C9: `extract_bytes` with a client of any unsupported type takes no
`isinstance` branch, so `body` is unbound and the call fails with an
`UnboundLocalError` (not a transport-classified error) without issuing any
wire request; likewise `extract_metadata` with a strategy outside
`{s3, http}` leaves `client` unassigned and fails before any fetch. -/
theorem unsupported_client_and_strategy_unbound (url : String) (o : Offset) :
    extract_bytes url o Client.other =
      (Except.error PyError.unboundLocal, []) ∧
    (∀ (slc strategy : String) (getUrl : String → String)
        (s3c : String → S3Result) (httpc : String → HttpResult)
        (order : List Nat) (archive : String)
        (inner : List (String × JsonEntry))
        (rest : List (String × List (String × JsonEntry))),
      strategy ≠ "s3" → strategy ≠ "http" →
      (∀ p ∈ inner, p.2.offset_start < p.2.offset_stop) →
      extract_metadata slc ((archive, inner) :: rest) strategy getUrl s3c
          httpc order =
        (Except.error PyError.unboundLocal, [])) := by
  constructor
  · rfl
  · intro slc strategy getUrl s3c httpc order archive inner rest hs3 hhttp hok
    have hparse : json_to_metadata_entries ((archive, inner) :: rest) =
        Except.ok (inner.map (fun p =>
          ⟨p.1, archive, ⟨p.2.offset_start, p.2.offset_stop⟩⟩)) :=
      buildEntries_ok_of_valid hok
    have hsel : selectClient strategy s3c httpc = none := by
      simp [selectClient, hs3, hhttp]
    simp only [extract_metadata, hparse, hsel]

theorem unsupported_client_and_strategy_unbound_witness :
    extract_bytes "u" ⟨0, 1⟩ Client.other =
      (Except.error PyError.unboundLocal, []) ∧
    extract_metadata "S" [("A", [("x", ⟨0, 1⟩)])] "ftp" (fun _ => "u")
        (fun _ => S3Result.raise) (fun _ => HttpResult.raise) [0] =
      (Except.error PyError.unboundLocal, []) :=
  ⟨(unsupported_client_and_strategy_unbound "u" ⟨0, 1⟩).1,
    (unsupported_client_and_strategy_unbound "u" ⟨0, 1⟩).2 "S" "ftp"
      (fun _ => "u") (fun _ => S3Result.raise) (fun _ => HttpResult.raise)
      [0] "A" [("x", ⟨0, 1⟩)] [] (by decide) (by decide)
      (by intro p hp; fin_cases hp; decide)⟩

/-- C5 counterexample: over the HTTP variant, a response with non-success
status 404 does NOT fail the fetch — its body is passed straight to the
decoder (here a valid stored-block stream for the byte `120`), and
`extract_bytes` even reports success. -/
theorem http_404_body_reaches_decoder :
    extract_bytes "u" ⟨0, 2⟩
        (Client.http (fun _ => HttpResult.resp 404 [1, 1, 0, 254, 255, 120])) =
      (Except.ok [120], [rangeHeader ⟨0, 2⟩]) := by
  simp only [extract_bytes, decodeBody]
  rw [show inflateRaw [1, 1, 0, 254, 255, 120] = some [120] by
    simp [inflateRaw]]

/-- C5 amended: error classification of `extract_bytes` per variant.  For
the object-store variant botocore raises on any failed request, so the
fetch fails before decoding; for the HTTP variant only a network-level
failure (a raised exception) fails the fetch — a returned response has its
body passed to the decoder unconditionally, whatever its status code. -/
theorem extract_bytes_error_classification (url : String) (o : Offset)
    (s3g : String → S3Result) (httpg : String → HttpResult) :
    (s3g (rangeHeader o) = S3Result.raise →
      extract_bytes url o (Client.s3 s3g) =
        (Except.error PyError.clientError, [rangeHeader o])) ∧
    (httpg (rangeHeader o) = HttpResult.raise →
      extract_bytes url o (Client.http httpg) =
        (Except.error PyError.requestsError, [rangeHeader o])) ∧
    (∀ status content,
      httpg (rangeHeader o) = HttpResult.resp status content →
      extract_bytes url o (Client.http httpg) =
        (decodeBody content, [rangeHeader o])) := by
  refine ⟨?_, ?_, ?_⟩
  · intro hx
    simp [extract_bytes, hx]
  · intro hx
    simp [extract_bytes, hx]
  · intro status content hx
    simp [extract_bytes, hx]

theorem extract_bytes_error_classification_witness :
    ((fun _ : String => S3Result.raise) (rangeHeader ⟨0, 2⟩) =
        S3Result.raise →
      extract_bytes "u" ⟨0, 2⟩ (Client.s3 (fun _ => S3Result.raise)) =
        (Except.error PyError.clientError, [rangeHeader ⟨0, 2⟩])) ∧
    ((fun _ : String => HttpResult.raise) (rangeHeader ⟨0, 2⟩) =
        HttpResult.raise →
      extract_bytes "u" ⟨0, 2⟩ (Client.http (fun _ => HttpResult.raise)) =
        (Except.error PyError.requestsError, [rangeHeader ⟨0, 2⟩])) ∧
    (∀ status content,
      (fun _ : String => HttpResult.raise) (rangeHeader ⟨0, 2⟩) =
        HttpResult.resp status content →
      extract_bytes "u" ⟨0, 2⟩ (Client.http (fun _ => HttpResult.raise)) =
        (decodeBody content, [rangeHeader ⟨0, 2⟩])) :=
  extract_bytes_error_classification "u" ⟨0, 2⟩ (fun _ => S3Result.raise)
    (fun _ => HttpResult.raise)

/-- C6 counterexample: the offset table `{"A": {}}` lists no fragments,
yet the operation does not fail at all — it succeeds and writes an empty
`S.xml`, refuting "fails with a ConfigError before any fetch" for empty
fragment listings. -/
theorem empty_fragment_listing_no_error :
    extract_metadata "S" [("A", [])] "http" (fun _ => "u")
        (fun _ => S3Result.raise) (fun _ => HttpResult.raise) [] =
      (Except.ok ⟨"S.xml", []⟩, []) := rfl

/-- C6 amended: an offset table with no top-level archive entries makes the
operation fail before any wire fetch — with an `IndexError` from
`list(metadata_dict.keys())[0]` (no `ConfigError` type exists in the code);
an archive entry that lists no fragments, however, does not fail. -/
theorem empty_table_fails_before_fetch (slc strategy : String)
    (getUrl : String → String) (s3c : String → S3Result)
    (httpc : String → HttpResult) (order : List Nat) :
    extract_metadata slc [] strategy getUrl s3c httpc order =
      (Except.error PyError.indexError, []) := rfl

/-- C3: every offset-table entry with `offset_stop ≤ offset_start` makes
Fragment Descriptor construction (`utils.Offset` inside
`json_to_metadata_entries`, modelled from the spec by `Offset.make`) fail
at construction time with the construction error, so the whole operation
aborts with zero wire fetches: an invalid range never reaches the
transport. -/
theorem invalid_range_rejected_at_construction (slc strategy : String)
    (getUrl : String → String) (s3c : String → S3Result)
    (httpc : String → HttpResult) (order : List Nat) (archive : String)
    (inner : List (String × JsonEntry))
    (rest : List (String × List (String × JsonEntry)))
    (hbad : ∃ p ∈ inner, p.2.offset_stop ≤ p.2.offset_start) :
    (∀ s t : Nat, t ≤ s → Offset.make s t = none) ∧
    extract_metadata slc ((archive, inner) :: rest) strategy getUrl s3c
        httpc order =
      (Except.error PyError.configError, []) := by
  constructor
  · intro s t h
    unfold Offset.make
    rw [if_neg (by omega)]
  · have hparse : json_to_metadata_entries ((archive, inner) :: rest) =
        Except.error PyError.configError := buildEntries_error_of_bad hbad
    simp only [extract_metadata, hparse]

theorem invalid_range_rejected_at_construction_witness :
    (∃ p ∈ [("x", (⟨9, 4⟩ : JsonEntry))],
      p.2.offset_stop ≤ p.2.offset_start) ∧
    ((∀ s t : Nat, t ≤ s → Offset.make s t = none) ∧
      extract_metadata "S" [("A", [("x", ⟨9, 4⟩)])] "s3" (fun _ => "u")
          (fun _ => S3Result.raise) (fun _ => HttpResult.raise) [0] =
        (Except.error PyError.configError, [])) :=
  ⟨⟨("x", ⟨9, 4⟩), by decide⟩,
    invalid_range_rejected_at_construction "S" "s3" (fun _ => "u")
      (fun _ => S3Result.raise) (fun _ => HttpResult.raise) [0] "A"
      [("x", ⟨9, 4⟩)] [] ⟨("x", ⟨9, 4⟩), by decide⟩⟩

/-- C2: fail-fast, no partial result: if the fetch+decode of any fragment
fails, the whole operation surfaces an error — the output file write is
never reached, so completed per-fragment results are discarded; conversely
the output file exists only when every fragment fetched and decoded
successfully. -/
theorem fail_fast_no_partial_output (slc : String) (table : JsonTable)
    (strategy : String) (getUrl : String → String) (s3c : String → S3Result)
    (httpc : String → HttpResult) (order : List Nat)
    (metadatas : List XmlMetadata) (client : Client)
    (hparse : json_to_metadata_entries table = Except.ok metadatas)
    (hclient : selectClient strategy s3c httpc = some client)
    (hc : ∀ i, i < metadatas.length → i ∈ order) :
    ((∃ o ∈ metadatas.map XmlMetadata.offset, ∃ e,
        (extract_bytes (getUrl slc) o client).1 = Except.error e) →
      ∃ e', (extract_metadata slc table strategy getUrl s3c httpc order).1 =
        Except.error e') ∧
    (∀ fw,
      (extract_metadata slc table strategy getUrl s3c httpc order).1 =
        Except.ok fw →
      ∀ o ∈ metadatas.map XmlMetadata.offset, ∃ b,
        (extract_bytes (getUrl slc) o client).1 = Except.ok b) := by
  have hchar := extract_metadata_complete slc table strategy getUrl s3c httpc
    order metadatas client hparse hclient hc
  constructor
  · rintro ⟨o, ho, e, he⟩
    have hmem : Except.error e ∈ (metadatas.map XmlMetadata.offset).map
        (fun o => (extract_bytes (getUrl slc) o client).1) := by
      rw [← he]
      exact List.mem_map_of_mem _ ho
    obtain ⟨e', he'⟩ := sequenceE_error_of_mem hmem
    rw [hchar, he']
    exact ⟨e', rfl⟩
  · intro fw hok o ho
    rw [hchar] at hok
    rcases hseq : sequenceE ((metadatas.map XmlMetadata.offset).map
        (fun o => (extract_bytes (getUrl slc) o client).1)) with e | results
    · rw [hseq] at hok
      simp at hok
    · have hall := (sequenceE_ok_iff _ results).mp hseq
      have hmem : (extract_bytes (getUrl slc) o client).1 ∈
          (metadatas.map XmlMetadata.offset).map
            (fun o => (extract_bytes (getUrl slc) o client).1) :=
        List.mem_map_of_mem _ ho
      rw [hall] at hmem
      obtain ⟨b, _, hb⟩ := List.mem_map.mp hmem
      exact ⟨b, hb.symm⟩

theorem fail_fast_no_partial_output_witness :
    ∃ e', (extract_metadata "S" [("A", [("x", ⟨0, 2⟩)])] "http"
        (fun _ => "u") (fun _ => S3Result.raise) (fun _ => HttpResult.raise)
        [0]).1 = Except.error e' :=
  (fail_fast_no_partial_output "S" [("A", [("x", ⟨0, 2⟩)])] "http"
      (fun _ => "u") (fun _ => S3Result.raise) (fun _ => HttpResult.raise)
      [0] [⟨"x", "A", ⟨0, 2⟩⟩] (Client.http (fun _ => HttpResult.raise))
      rfl rfl (by decide)).1
    ⟨⟨0, 2⟩, by decide, PyError.requestsError, rfl⟩

/-- C1: for every fragment set built from the offset table, the pool
returns the per-fragment results in the same order as the supplied
descriptors, for ANY complete completion order (two completion orders give
identical operations), and the bytes written to the output artifact are the
concatenation of the decoded buffers in input (insertion) order. -/
theorem output_in_input_order (slc : String) (table : JsonTable)
    (strategy : String) (getUrl : String → String) (s3c : String → S3Result)
    (httpc : String → HttpResult) (o1 o2 : List Nat)
    (metadatas : List XmlMetadata) (client : Client)
    (hparse : json_to_metadata_entries table = Except.ok metadatas)
    (hclient : selectClient strategy s3c httpc = some client)
    (h1 : ∀ i, i < metadatas.length → i ∈ o1)
    (h2 : ∀ i, i < metadatas.length → i ∈ o2) :
    extract_metadata slc table strategy getUrl s3c httpc o1 =
      extract_metadata slc table strategy getUrl s3c httpc o2 ∧
    poolMap (fun o => extract_bytes (getUrl slc) o client)
        (metadatas.map XmlMetadata.offset) o1 =
      (metadatas.map XmlMetadata.offset).map
        (fun o => extract_bytes (getUrl slc) o client) ∧
    (∀ fw,
      (extract_metadata slc table strategy getUrl s3c httpc o1).1 =
        Except.ok fw →
      ∃ results,
        sequenceE ((metadatas.map XmlMetadata.offset).map
            (fun o => (extract_bytes (getUrl slc) o client).1)) =
          Except.ok results ∧
        fw.name = slc ++ ".xml" ∧ fw.content = results.flatten) := by
  have hch1 := extract_metadata_complete slc table strategy getUrl s3c httpc
    o1 metadatas client hparse hclient h1
  have hch2 := extract_metadata_complete slc table strategy getUrl s3c httpc
    o2 metadatas client hparse hclient h2
  refine ⟨hch1.trans hch2.symm, ?_, ?_⟩
  · exact poolMap_complete _ _ o1 (by simpa using h1)
  · intro fw hok
    rw [hch1] at hok
    rcases hseq : sequenceE ((metadatas.map XmlMetadata.offset).map
        (fun o => (extract_bytes (getUrl slc) o client).1)) with e | results
    · rw [hseq] at hok
      simp at hok
    · rw [hseq] at hok
      have hfw : FileWrite.mk (slc ++ ".xml") results.flatten = fw :=
        Except.ok.inj hok
      refine ⟨results, rfl, ?_, ?_⟩
      · rw [← hfw]
      · rw [← hfw]

theorem output_in_input_order_witness :
    extract_metadata "ARCHIVE1"
        [("ARCHIVE1", [("a", ⟨0, 10⟩), ("b", ⟨10, 20⟩)])] "http"
        (fun _ => "u") (fun _ => S3Result.raise)
        (fun h => if h = "bytes=0-9" then HttpResult.resp 200 [1, 1, 0, 254, 255, 65]
          else HttpResult.resp 200 [1, 1, 0, 254, 255, 66]) [1, 0] =
      extract_metadata "ARCHIVE1"
        [("ARCHIVE1", [("a", ⟨0, 10⟩), ("b", ⟨10, 20⟩)])] "http"
        (fun _ => "u") (fun _ => S3Result.raise)
        (fun h => if h = "bytes=0-9" then HttpResult.resp 200 [1, 1, 0, 254, 255, 65]
          else HttpResult.resp 200 [1, 1, 0, 254, 255, 66]) [0, 1] ∧
    poolMap (fun o => extract_bytes ((fun _ : String => "u") "ARCHIVE1") o
        (Client.http (fun h => if h = "bytes=0-9"
          then HttpResult.resp 200 [1, 1, 0, 254, 255, 65]
          else HttpResult.resp 200 [1, 1, 0, 254, 255, 66])))
        (([⟨"a", "ARCHIVE1", ⟨0, 10⟩⟩, ⟨"b", "ARCHIVE1", ⟨10, 20⟩⟩] :
          List XmlMetadata).map XmlMetadata.offset) [1, 0] =
      (([⟨"a", "ARCHIVE1", ⟨0, 10⟩⟩, ⟨"b", "ARCHIVE1", ⟨10, 20⟩⟩] :
          List XmlMetadata).map XmlMetadata.offset).map
        (fun o => extract_bytes ((fun _ : String => "u") "ARCHIVE1") o
          (Client.http (fun h => if h = "bytes=0-9"
            then HttpResult.resp 200 [1, 1, 0, 254, 255, 65]
            else HttpResult.resp 200 [1, 1, 0, 254, 255, 66]))) ∧
    (∀ fw,
      (extract_metadata "ARCHIVE1"
          [("ARCHIVE1", [("a", ⟨0, 10⟩), ("b", ⟨10, 20⟩)])] "http"
          (fun _ => "u") (fun _ => S3Result.raise)
          (fun h => if h = "bytes=0-9" then HttpResult.resp 200 [1, 1, 0, 254, 255, 65]
            else HttpResult.resp 200 [1, 1, 0, 254, 255, 66]) [1, 0]).1 =
        Except.ok fw →
      ∃ results,
        sequenceE ((([⟨"a", "ARCHIVE1", ⟨0, 10⟩⟩, ⟨"b", "ARCHIVE1", ⟨10, 20⟩⟩] :
            List XmlMetadata).map XmlMetadata.offset).map
            (fun o => (extract_bytes ((fun _ : String => "u") "ARCHIVE1") o
              (Client.http (fun h => if h = "bytes=0-9"
                then HttpResult.resp 200 [1, 1, 0, 254, 255, 65]
                else HttpResult.resp 200 [1, 1, 0, 254, 255, 66]))).1)) =
          Except.ok results ∧
        fw.name = "ARCHIVE1" ++ ".xml" ∧ fw.content = results.flatten) :=
  output_in_input_order "ARCHIVE1"
    [("ARCHIVE1", [("a", ⟨0, 10⟩), ("b", ⟨10, 20⟩)])] "http" (fun _ => "u")
    (fun _ => S3Result.raise)
    (fun h => if h = "bytes=0-9" then HttpResult.resp 200 [1, 1, 0, 254, 255, 65]
      else HttpResult.resp 200 [1, 1, 0, 254, 255, 66]) [1, 0] [0, 1]
    [⟨"a", "ARCHIVE1", ⟨0, 10⟩⟩, ⟨"b", "ARCHIVE1", ⟨10, 20⟩⟩]
    (Client.http (fun h => if h = "bytes=0-9"
      then HttpResult.resp 200 [1, 1, 0, 254, 255, 65]
      else HttpResult.resp 200 [1, 1, 0, 254, 255, 66]))
    rfl rfl (by decide) (by decide)
